import Mathlib

/-!
Shallow embedding of `src/invaders.py` (PyInvaders).

Python integers are unbounded, so coordinates, velocities and speeds are
modelled as `Int`.  Python objects are compared by identity inside
`list.remove`; each `Alien` and `Bullet` therefore carries an `id : Nat`
field standing for its object identity, and `list.remove(obj)` is modelled
as removal of the first element with the same `id` (faithful to the code
whenever the ids in a list are distinct, which object identity guarantees).
`list.remove` raises `ValueError` when no element matches; fallible passes
therefore return `Except Unit`.

The pygame image handles only contribute their width and height (used by
`get_rect`); each entity carries `w`/`h` fields for them, and the game
state carries the dimensions of the bullet image used when a bullet is
spawned.  The drawing primitives are modelled by a list of draw commands.
-/

set_option autoImplicit false
set_option maxRecDepth 8192

namespace PyInvaders

/-- Keyboard keys relevant to the program (`K_LEFT`, `K_RIGHT`, `K_SPACE`,
`K_ESCAPE`); `other` stands for any other key. -/
inductive Key where
  | left
  | right
  | space
  | escape
  | other
deriving DecidableEq

/-- Pygame events: `KEYDOWN`/`KEYUP` with a key, `QUIT`, and any other
event kind (mouse motion etc.). -/
inductive Event where
  | keydown (k : Key)
  | keyup (k : Key)
  | quit
  | other
deriving DecidableEq

/-- A pygame `Rect`: position and size. -/
structure Rect where
  x : Int
  y : Int
  w : Int
  h : Int
deriving DecidableEq

/-- Pygame's `Rect.colliderect`: axis-aligned overlap test (strict on both
axes), as used by the collision pass. -/
def colliderect (A B : Rect) : Bool :=
  decide (A.x < B.x + B.w) && decide (A.y < B.y + B.h) &&
    decide (B.x < A.x + A.w) && decide (B.y < A.y + A.h)

/-- The `Player` object: `x`, `y`, `x_vel`, `y_vel` as initialised and
mutated by `Player.__init__` / `Player.update`. -/
structure Player where
  x : Int
  y : Int
  x_vel : Int
  y_vel : Int
deriving DecidableEq

/-- The body of the event loop in `Player.update`: arrow-key downs and ups
adjust `x_vel` by ±10; all other events leave the player unchanged. -/
def applyKeyEvent (p : Player) (e : Event) : Player :=
  match e with
  | .keydown .left => { p with x_vel := p.x_vel - 10 }
  | .keydown .right => { p with x_vel := p.x_vel + 10 }
  | .keyup .left => { p with x_vel := p.x_vel + 10 }
  | .keyup .right => { p with x_vel := p.x_vel - 10 }
  | _ => p

/-- `Player.update`: fold the event batch over the velocity logic, then
`x += x_vel; y += y_vel`. -/
def Player.update (es : List Event) (p : Player) : Player :=
  let q := es.foldl applyKeyEvent p
  { q with x := q.x + q.x_vel, y := q.y + q.y_vel }

/-- The `Alien` object: position, scalar speed, the x bounds fixed by
`Alien.__init__` (50 and 500), and the alien image's dimensions. -/
structure Alien where
  id : Nat
  x : Int
  y : Int
  speed : Int
  left_limit : Int
  right_limit : Int
  w : Int
  h : Int
deriving DecidableEq

/-- `Alien.update`: `x += speed`; afterwards, if `x < left_limit` or
`x > right_limit`, then `speed *= -1` and `y += 10`.  The event list is
ignored, as in the source. -/
def Alien.update (_es : List Event) (a : Alien) : Alien :=
  let x1 := a.x + a.speed
  if x1 < a.left_limit ∨ x1 > a.right_limit then
    { a with x := x1, speed := -a.speed, y := a.y + 10 }
  else
    { a with x := x1 }

/-- `Alien.get_rectangle`: the image rect moved to the alien's position. -/
def Alien.get_rectangle (a : Alien) : Rect :=
  { x := a.x, y := a.y, w := a.w, h := a.h }

/-- The `Bullet` object: position, upward speed (`velocity`, set to 10 at
construction), and the bullet image's dimensions. -/
structure Bullet where
  id : Nat
  x : Int
  y : Int
  velocity : Int
  w : Int
  h : Int
deriving DecidableEq

/-- `Bullet.update`: `y -= velocity`; the event list is ignored. -/
def Bullet.update (_es : List Event) (b : Bullet) : Bullet :=
  { b with y := b.y - b.velocity }

/-- `Bullet.get_rectangle`: the image rect moved to the bullet's position. -/
def Bullet.get_rectangle (b : Bullet) : Rect :=
  { x := b.x, y := b.y, w := b.w, h := b.h }

/-- Python's `list.remove(obj)`: remove the first matching element, or fail
(`ValueError`, modelled by `none`) when no element matches. -/
def removeFirst {α : Type} (p : α → Bool) : List α → Option (List α)
  | [] => none
  | x :: xs => if p x then some xs else Option.map (fun ys => x :: ys) (removeFirst p xs)

theorem removeFirst_length {α : Type} {p : α → Bool} :
    ∀ {l l' : List α}, removeFirst p l = some l' → l'.length + 1 = l.length := by
  intro l
  induction l with
  | nil => intro l' h; simp [removeFirst] at h
  | cons x xs ih =>
    intro l' h
    by_cases hx : p x
    · simp [removeFirst, hx] at h
      simp [← h]
    · simp [removeFirst, hx] at h
      obtain ⟨ys, hys, rfl⟩ := h
      simp [← ih hys]

theorem removeFirst_sublist {α : Type} {p : α → Bool} :
    ∀ {l l' : List α}, removeFirst p l = some l' → List.Sublist l' l := by
  intro l
  induction l with
  | nil => intro l' h; simp [removeFirst] at h
  | cons x xs ih =>
    intro l' h
    by_cases hx : p x
    · simp [removeFirst, hx] at h
      exact h ▸ List.sublist_cons_self x xs
    · simp [removeFirst, hx] at h
      obtain ⟨ys, hys, rfl⟩ := h
      exact List.Sublist.cons₂ x (ih hys)

theorem removeFirst_mem {α : Type} {p : α → Bool} :
    ∀ {l l' : List α} {b : α}, removeFirst p l = some l' → b ∈ l → p b = false → b ∈ l' := by
  intro l
  induction l with
  | nil => intro l' b h; simp [removeFirst] at h
  | cons x xs ih =>
    intro l' b h hb hpb
    by_cases hx : p x
    · simp [removeFirst, hx] at h
      rcases List.mem_cons.mp hb with rfl | hbx
      · rw [hx] at hpb; cases hpb
      · exact h ▸ hbx
    · simp [removeFirst, hx] at h
      obtain ⟨ys, hys, rfl⟩ := h
      rcases List.mem_cons.mp hb with rfl | hbx
      · exact List.mem_cons_self b ys
      · exact List.mem_cons_of_mem x (ih hys hbx hpb)

/-- The inner loop of the collision pass in `Game.update_logic`:
`for alien in self.alien_list:` for a fixed bullet `c`, while both lists are
being mutated.  CPython's list iterator reads the element at its current
index from the (mutating) list and then advances the index, so the loop is
indexed by `j` over the current alien list; when index `j` is out of range
the iterator stops.  On a rectangle collision the bullet and the alien are
removed with `list.remove`, which fails (`ValueError`) if the element is
absent — which happens when the same bullet matches a second time. -/
def innerLoop (c : Bullet) (j : Nat) (bl : List Bullet) (al : List Alien) :
    Except Unit (List Bullet × List Alien) :=
  if h : j < al.length then
    if colliderect c.get_rectangle (al.get ⟨j, h⟩).get_rectangle then
      match removeFirst (fun x => x.id == c.id) bl with
      | none => .error ()
      | some bl1 =>
        match hr : removeFirst (fun x => x.id == (al.get ⟨j, h⟩).id) al with
        | none => .error ()
        | some al1 => innerLoop c (j + 1) bl1 al1
    else
      innerLoop c (j + 1) bl al
  else
    .ok (bl, al)
termination_by al.length - j
decreasing_by
  · have := removeFirst_length hr
    omega
  · omega


theorem innerLoop_sublists {c : Bullet} {j : Nat} {bl bl1 : List Bullet} {al al1 : List Alien}
    (h : innerLoop c j bl al = .ok (bl1, al1)) :
    List.Sublist bl1 bl ∧ List.Sublist al1 al := by
  induction j, bl, al using innerLoop.induct c generalizing bl1 al1
  case case1 j bl al hj hcol hrem =>
    rw [innerLoop] at h
    simp only [List.get_eq_getElem] at hcol
    simp [hj, hcol, hrem] at h
  case case2 j bl al hj hcol blr hrem1 hrem2 =>
    rw [innerLoop] at h
    simp only [List.get_eq_getElem] at hcol hrem2
    simp [hj, hcol, hrem1] at h
    split at h
    · simp at h
    next al2 heq =>
      rw [hrem2] at heq
      cases heq
  case case3 j bl al hj hcol blr hrem1 alr hrem2 ih =>
    rw [innerLoop] at h
    simp only [List.get_eq_getElem] at hcol hrem2
    simp [hj, hcol, hrem1] at h
    split at h
    · simp at h
    next al2 heq =>
      rw [hrem2] at heq
      injection heq with heq2
      subst heq2
      obtain ⟨s1, s2⟩ := ih h
      exact ⟨s1.trans (removeFirst_sublist hrem1), s2.trans (removeFirst_sublist hrem2)⟩
  case case4 j bl al hj hcol ih =>
    rw [innerLoop] at h
    simp only [List.get_eq_getElem] at hcol
    simp [hj, hcol] at h
    exact ih h
  case case5 j bl al hj =>
    rw [innerLoop] at h
    simp [hj] at h
    obtain ⟨rfl, rfl⟩ := h
    exact ⟨List.Sublist.refl _, List.Sublist.refl _⟩

theorem innerLoop_mem_bullet {c : Bullet} {j : Nat} {bl bl1 : List Bullet} {al al1 : List Alien}
    {b : Bullet} (h : innerLoop c j bl al = .ok (bl1, al1)) (hb : b ∈ bl)
    (hid : (b.id == c.id) = false) : b ∈ bl1 := by
  induction j, bl, al using innerLoop.induct c generalizing bl1 al1
  case case1 j bl al hj hcol hrem =>
    rw [innerLoop] at h
    simp only [List.get_eq_getElem] at hcol
    simp [hj, hcol, hrem] at h
  case case2 j bl al hj hcol blr hrem1 hrem2 =>
    rw [innerLoop] at h
    simp only [List.get_eq_getElem] at hcol hrem2
    simp [hj, hcol, hrem1] at h
    split at h
    · simp at h
    next al2 heq =>
      rw [hrem2] at heq
      cases heq
  case case3 j bl al hj hcol blr hrem1 alr hrem2 ih =>
    rw [innerLoop] at h
    simp only [List.get_eq_getElem] at hcol hrem2
    simp [hj, hcol, hrem1] at h
    split at h
    · simp at h
    next al2 heq =>
      rw [hrem2] at heq
      injection heq with heq2
      subst heq2
      exact ih h (removeFirst_mem hrem1 hb hid)
  case case4 j bl al hj hcol ih =>
    rw [innerLoop] at h
    simp only [List.get_eq_getElem] at hcol
    simp [hj, hcol] at h
    exact ih h hb
  case case5 j bl al hj =>
    rw [innerLoop] at h
    simp [hj] at h
    exact h.1 ▸ hb

theorem innerLoop_no_collision {c : Bullet} {j : Nat} {bl : List Bullet} {al : List Alien}
    (hnc : ∀ a ∈ al, colliderect c.get_rectangle a.get_rectangle = false) :
    innerLoop c j bl al = .ok (bl, al) := by
  induction j, bl, al using innerLoop.induct c
  case case1 j bl al hj hcol hrem =>
    have := hnc _ (al.get_mem j hj)
    rw [this] at hcol
    cases hcol
  case case2 j bl al hj hcol blr hrem1 hrem2 =>
    have := hnc _ (al.get_mem j hj)
    rw [this] at hcol
    cases hcol
  case case3 j bl al hj hcol blr hrem1 alr hrem2 ih =>
    have := hnc _ (al.get_mem j hj)
    rw [this] at hcol
    cases hcol
  case case4 j bl al hj hcol ih =>
    rw [innerLoop]
    simp only [List.get_eq_getElem] at hcol
    simp [hj, hcol]
    exact ih hnc
  case case5 j bl al hj =>
    rw [innerLoop]
    simp [hj]

/-- The outer loop of the collision pass: `for bullet in self.bullet_list:`
with the same CPython iterator semantics, running the inner alien loop for
the bullet at the current index of the (mutating) bullet list. -/
def outerLoop (i : Nat) (bl : List Bullet) (al : List Alien) :
    Except Unit (List Bullet × List Alien) :=
  if h : i < bl.length then
    match hb : innerLoop (bl.get ⟨i, h⟩) 0 bl al with
    | .error e => .error e
    | .ok (bl1, al1) => outerLoop (i + 1) bl1 al1
  else
    .ok (bl, al)
termination_by bl.length - i
decreasing_by
  have := ((innerLoop_sublists hb).1).length_le
  omega


theorem outerLoop_mem_bullet {i : Nat} {bl bl1 : List Bullet} {al al1 : List Alien} {b : Bullet}
    (hnd : (bl.map Bullet.id).Nodup) (h : outerLoop i bl al = .ok (bl1, al1)) (hb : b ∈ bl)
    (hnc : ∀ a ∈ al, colliderect b.get_rectangle a.get_rectangle = false) : b ∈ bl1 := by
  induction i, bl, al using outerLoop.induct generalizing bl1 al1
  case case1 i bl al hi e hin =>
    rw [outerLoop] at h
    simp only [List.get_eq_getElem] at hin
    simp [hi] at h
    split at h
    next e2 heq =>
      simp at h
    next bl2 al2 heq =>
      rw [hin] at heq
      cases heq
  case case2 i bl al hi blr alr hin ih =>
    rw [outerLoop] at h
    simp only [List.get_eq_getElem] at hin
    simp [hi] at h
    split at h
    next e heq =>
      rw [hin] at heq
      cases heq
    next bl2 al2 heq =>
      rw [hin] at heq
      injection heq with heq2
      injection heq2 with heq3 heq4
      subst heq3
      subst heq4
      obtain ⟨sb, sa⟩ := innerLoop_sublists hin
      by_cases hid : b.id = bl[i].id
      · have hmem : bl[i] ∈ bl := List.getElem_mem hi
        have hbeq : b = bl[i] := by
          have h1 : (fun x => x.id) b = (fun x => x.id) bl[i] := hid
          exact List.inj_on_of_nodup_map hnd hb hmem h1
        have hidentity : innerLoop bl[i] 0 bl al = .ok (bl, al) := by
          apply innerLoop_no_collision
          intro a ha
          rw [← hbeq]
          exact hnc a ha
        rw [hidentity] at hin
        injection hin with hin2
        injection hin2 with hin3 hin4
        subst hin3
        subst hin4
        exact ih hnd h hb hnc
      · have hb1 : b ∈ blr :=
          innerLoop_mem_bullet hin hb (by simp [hid])
        have hnd1 : (blr.map Bullet.id).Nodup := (sb.map Bullet.id).nodup hnd
        have hnc1 : ∀ a ∈ alr, colliderect b.get_rectangle a.get_rectangle = false :=
          fun a ha => hnc a (sa.mem ha)
        exact ih hnd1 h hb1 hnc1
  case case3 i bl al hi =>
    rw [outerLoop] at h
    simp [hi] at h
    exact h.1 ▸ hb


/-- The mutable state owned by `Game`: the player, the alien and bullet
lists and the `running` flag of `main_loop`.  `next_id` supplies a fresh
object identity for each bullet constructed by the fire action, and
`bullet_w`/`bullet_h` are the dimensions of the loaded bullet image used by
every constructed bullet. -/
structure GameState where
  player : Player
  alien_list : List Alien
  bullet_list : List Bullet
  running : Bool
  next_id : Nat
  bullet_w : Int
  bullet_h : Int
deriving DecidableEq

/-- `Game.update_logic`: update the player, every alien and every bullet
with the same event batch, then run the bullet×alien collision pass over
the (mutating) lists.  A `ValueError` raised by `list.remove` aborts the
tick with an error. -/
def update_logic (es : List Event) (s : GameState) : Except Unit GameState :=
  match outerLoop 0 (s.bullet_list.map (Bullet.update es)) (s.alien_list.map (Alien.update es)) with
  | .error e => .error e
  | .ok (bl1, al1) =>
    .ok { s with player := Player.update es s.player,
                 alien_list := al1, bullet_list := bl1 }

/-- One draw command issued during `Game.update_display`: the background
blit, or a blit of the player, an alien or a bullet image at a position. -/
inductive Drawable where
  | background
  | playerD (x y : Int)
  | alienD (x y : Int)
  | bulletD (x y : Int)
deriving DecidableEq

/-- `Game.update_display`: background first, then the player, then every
alien, then every bullet, in list order (then `pygame.display.flip`). -/
def update_display (s : GameState) : List Drawable :=
  Drawable.background :: Drawable.playerD s.player.x s.player.y ::
    (s.alien_list.map (fun a => Drawable.alienD a.x a.y) ++
      s.bullet_list.map (fun b => Drawable.bulletD b.x b.y))

/-- `Bullet(self.player.x, 500)` as constructed by the fire action:
velocity 10 and the bullet image's dimensions, with a fresh identity. -/
def spawnBullet (s : GameState) : Bullet :=
  { id := s.next_id, x := s.player.x, y := 500, velocity := 10,
    w := s.bullet_w, h := s.bullet_h }

/-- One step of the post-render event loop in `Game.main_loop`: a space
key-down appends a new bullet, an escape key-up or a `QUIT` event clears
the `running` flag, every other event is ignored. -/
def handleEvent (s : GameState) (e : Event) : GameState :=
  match e with
  | .keydown .space =>
    { s with bullet_list := s.bullet_list ++ [spawnBullet s],
             next_id := s.next_id + 1 }
  | .keyup .escape => { s with running := false }
  | .quit => { s with running := false }
  | _ => s

/-- The post-render event loop of `Game.main_loop`:
`for event in event_list: ...` over the same batch. -/
def postEvents (es : List Event) (s : GameState) : GameState :=
  es.foldl handleEvent s

/-- One iteration of the `while running` loop in `Game.main_loop` (the
frame-rate wait is not modelled): `update_logic`, then `update_display`
producing this tick's frame, then the post-render event loop.  Returns the
successor state together with the frame that was presented. -/
def tick (es : List Event) (s : GameState) : Except Unit (GameState × List Drawable) :=
  match update_logic es s with
  | .error e => .error e
  | .ok s1 => .ok (postEvents es s1, update_display s1)

/-- Events on which `main_loop` clears `running`: an escape key-up or a
`QUIT` event. -/
def isQuitSignal (e : Event) : Bool :=
  match e with
  | .keyup .escape => true
  | .quit => true
  | _ => false

/-- The bullets appended by the post-render event loop: one per space
key-down, at horizontal position `x` (the player's position after this
tick's `update_logic`) and row 500, with consecutive fresh identities. -/
def spawned (x w h : Int) (nid : Nat) : List Event → List Bullet
  | [] => []
  | .keydown .space :: es =>
    { id := nid, x := x, y := 500, velocity := 10, w := w, h := h } ::
      spawned x w h (nid + 1) es
  | _ :: es => spawned x w h nid es

/-- Iterated `Game.update_logic`: run one call per event batch, stopping at
the first error. -/
def runLogic : List (List Event) → GameState → Except Unit GameState
  | [], s => .ok s
  | es :: rest, s =>
    match update_logic es s with
    | .error e => .error e
    | .ok s1 => runLogic rest s1


theorem innerLoop_done {c : Bullet} {j : Nat} {bl : List Bullet} {al : List Alien}
    (h : ¬ j < al.length) : innerLoop c j bl al = .ok (bl, al) := by
  rw [innerLoop]
  simp [h]

theorem innerLoop_step_nocol {c : Bullet} {j : Nat} {bl : List Bullet} {al : List Alien}
    (h : j < al.length)
    (hc : colliderect c.get_rectangle (al.get ⟨j, h⟩).get_rectangle = false) :
    innerLoop c j bl al = innerLoop c (j + 1) bl al := by
  rw [innerLoop]
  simp only [List.get_eq_getElem] at hc
  simp [h, hc]

theorem innerLoop_step_col_err {c : Bullet} {j : Nat} {bl : List Bullet} {al : List Alien}
    (h : j < al.length)
    (hc : colliderect c.get_rectangle (al.get ⟨j, h⟩).get_rectangle = true)
    (hrb : removeFirst (fun x => x.id == c.id) bl = none) :
    innerLoop c j bl al = .error () := by
  rw [innerLoop]
  simp only [List.get_eq_getElem] at hc
  simp [h, hc, hrb]

theorem innerLoop_step_col_ok {c : Bullet} {j : Nat} {bl bl1 : List Bullet} {al al1 : List Alien}
    (h : j < al.length)
    (hc : colliderect c.get_rectangle (al.get ⟨j, h⟩).get_rectangle = true)
    (hrb : removeFirst (fun x => x.id == c.id) bl = some bl1)
    (hra : removeFirst (fun x => x.id == (al.get ⟨j, h⟩).id) al = some al1) :
    innerLoop c j bl al = innerLoop c (j + 1) bl1 al1 := by
  rw [innerLoop]
  simp only [List.get_eq_getElem] at hc hra
  simp [h, hc, hrb]
  split
  next heq =>
    rw [hra] at heq
    cases heq
  next al2 heq =>
    rw [hra] at heq
    injection heq with h2
    rw [h2]

theorem outerLoop_done {i : Nat} {bl : List Bullet} {al : List Alien}
    (h : ¬ i < bl.length) : outerLoop i bl al = .ok (bl, al) := by
  rw [outerLoop]
  simp [h]

theorem outerLoop_step_error {i : Nat} {bl : List Bullet} {al : List Alien}
    (h : i < bl.length)
    (he : innerLoop (bl.get ⟨i, h⟩) 0 bl al = .error ()) :
    outerLoop i bl al = .error () := by
  rw [outerLoop]
  simp only [List.get_eq_getElem] at he
  simp [h]
  split
  next e heq =>
    cases e
    rfl
  next bl2 al2 heq =>
    rw [he] at heq
    cases heq

theorem outerLoop_step_ok {i : Nat} {bl bl1 : List Bullet} {al al1 : List Alien}
    (h : i < bl.length)
    (he : innerLoop (bl.get ⟨i, h⟩) 0 bl al = .ok (bl1, al1)) :
    outerLoop i bl al = outerLoop (i + 1) bl1 al1 := by
  rw [outerLoop]
  simp only [List.get_eq_getElem] at he
  simp [h]
  split
  next e heq =>
    rw [he] at heq
    cases heq
  next bl2 al2 heq =>
    rw [he] at heq
    injection heq with h2
    injection h2 with h3 h4
    rw [h3, h4]


theorem postEvents_player (es : List Event) (s : GameState) :
    (postEvents es s).player = s.player := by
  induction es generalizing s with
  | nil => rfl
  | cons e es ih =>
    show (postEvents es (handleEvent s e)).player = s.player
    rw [ih]
    cases e with
    | keydown k => cases k <;> rfl
    | keyup k => cases k <;> rfl
    | quit => rfl
    | other => rfl

theorem postEvents_alien_list (es : List Event) (s : GameState) :
    (postEvents es s).alien_list = s.alien_list := by
  induction es generalizing s with
  | nil => rfl
  | cons e es ih =>
    show (postEvents es (handleEvent s e)).alien_list = s.alien_list
    rw [ih]
    cases e with
    | keydown k => cases k <;> rfl
    | keyup k => cases k <;> rfl
    | quit => rfl
    | other => rfl

theorem postEvents_running (es : List Event) (s : GameState) :
    (postEvents es s).running = (s.running && !es.any isQuitSignal) := by
  induction es generalizing s with
  | nil => simp [postEvents]
  | cons e es ih =>
    show (postEvents es (handleEvent s e)).running = _
    rw [ih]
    cases e with
    | keydown k => cases k <;> simp [handleEvent, isQuitSignal, List.any_cons]
    | keyup k => cases k <;> simp [handleEvent, isQuitSignal, List.any_cons]
    | quit => simp [handleEvent, isQuitSignal, List.any_cons]
    | other => simp [handleEvent, isQuitSignal, List.any_cons]

theorem postEvents_bullet_list (es : List Event) (s : GameState) :
    (postEvents es s).bullet_list =
      s.bullet_list ++ spawned s.player.x s.bullet_w s.bullet_h s.next_id es := by
  induction es generalizing s with
  | nil => simp [postEvents, spawned]
  | cons e es ih =>
    show (postEvents es (handleEvent s e)).bullet_list = _
    rw [ih]
    cases e with
    | keydown k =>
      cases k <;> simp [handleEvent, spawnBullet, spawned, List.append_assoc]
    | keyup k => cases k <;> simp [handleEvent, spawned]
    | quit => simp [handleEvent, spawned]
    | other => simp [handleEvent, spawned]


/-- The number of occurrences of the event `e0` in a batch. -/
def countKey (e0 : Event) : List Event → Nat
  | [] => 0
  | e :: es => (if e = e0 then 1 else 0) + countKey e0 es

theorem foldl_applyKeyEvent_x (es : List Event) (p : Player) :
    (es.foldl applyKeyEvent p).x = p.x ∧ (es.foldl applyKeyEvent p).y = p.y ∧
      (es.foldl applyKeyEvent p).y_vel = p.y_vel := by
  induction es generalizing p with
  | nil => exact ⟨rfl, rfl, rfl⟩
  | cons e es ih =>
    show (es.foldl applyKeyEvent (applyKeyEvent p e)).x = p.x ∧ _ ∧ _
    have h := ih (applyKeyEvent p e)
    have hx : (applyKeyEvent p e).x = p.x ∧ (applyKeyEvent p e).y = p.y ∧
        (applyKeyEvent p e).y_vel = p.y_vel := by
      cases e with
      | keydown k => cases k <;> exact ⟨rfl, rfl, rfl⟩
      | keyup k => cases k <;> exact ⟨rfl, rfl, rfl⟩
      | quit => exact ⟨rfl, rfl, rfl⟩
      | other => exact ⟨rfl, rfl, rfl⟩
    exact ⟨h.1.trans hx.1, h.2.1.trans hx.2.1, h.2.2.trans hx.2.2⟩

theorem foldl_applyKeyEvent_x_vel (es : List Event) (p : Player) :
    (es.foldl applyKeyEvent p).x_vel =
      p.x_vel - 10 * (countKey (.keydown .left) es : Int)
        + 10 * (countKey (.keyup .left) es : Int)
        + 10 * (countKey (.keydown .right) es : Int)
        - 10 * (countKey (.keyup .right) es : Int) := by
  induction es generalizing p with
  | nil => simp [countKey]
  | cons e es ih =>
    show (es.foldl applyKeyEvent (applyKeyEvent p e)).x_vel = _
    rw [ih]
    cases e with
    | keydown k =>
      cases k <;> simp [applyKeyEvent, countKey] <;> ring
    | keyup k =>
      cases k <;> simp [applyKeyEvent, countKey] <;> ring
    | quit => simp [applyKeyEvent, countKey]
    | other => simp [applyKeyEvent, countKey]


/-- The player as initialised by `Player.__init__`: position (100, 500),
velocity zero. -/
def player0 : Player := { x := 100, y := 500, x_vel := 0, y_vel := 0 }

/-- The alien created in `Game.__init__` (`Alien(100, 100, 5)`), with
bounds 50/500 from `Alien.__init__`; image dimensions chosen concretely
(no claim depends on their values). -/
def alien0 : Alien :=
  { id := 0, x := 100, y := 100, speed := 5, left_limit := 50,
    right_limit := 500, w := 60, h := 40 }

/-- The game state right after `Game.__init__`: the player, one alien,
no bullets, running. -/
def sInit : GameState :=
  { player := player0, alien_list := [alien0], bullet_list := [],
    running := true, next_id := 1, bullet_w := 8, bullet_h := 16 }

/-- A game state whose alien and bullet lists are empty. -/
def sEmpty : GameState :=
  { player := player0, alien_list := [], bullet_list := [],
    running := true, next_id := 0, bullet_w := 8, bullet_h := 16 }

/-- Claim C3: every tick `Alien.update` adds `speed` to `position.x`
unconditionally; afterwards, if `position.x` lies outside
`[left_limit, right_limit]`, the speed is negated and `position.y`
increases by 10 in the same boundary event, and otherwise speed and `y`
are unchanged.  Concretely, the alien started at x = 100 with speed 5 and
bounds [50, 500] still has speed 5 and y = 100 after 80 ticks (x = 500),
and on tick 81 — the first tick with x > 500 — its speed flips to -5 and
its y increases by exactly 10 (to 110, with x = 505). -/
theorem claim_C3 :
    (∀ (es : List Event) (a : Alien),
      (Alien.update es a).x = a.x + a.speed ∧
      (a.x + a.speed < a.left_limit ∨ a.x + a.speed > a.right_limit →
        (Alien.update es a).speed = -a.speed ∧ (Alien.update es a).y = a.y + 10) ∧
      (a.left_limit ≤ a.x + a.speed ∧ a.x + a.speed ≤ a.right_limit →
        (Alien.update es a).speed = a.speed ∧ (Alien.update es a).y = a.y)) ∧
    ((Alien.update [])^[80] alien0).x = 500 ∧
    ((Alien.update [])^[80] alien0).speed = 5 ∧
    ((Alien.update [])^[80] alien0).y = 100 ∧
    ((Alien.update [])^[81] alien0).x = 505 ∧
    ((Alien.update [])^[81] alien0).speed = -5 ∧
    ((Alien.update [])^[81] alien0).y = 110 := by
  constructor
  · intro es a
    refine ⟨?_, fun hcond => ?_, fun hin => ?_⟩
    · simp only [Alien.update]
      split <;> rfl
    · simp only [Alien.update]
      split
      next h => exact ⟨rfl, rfl⟩
      next h => exact absurd hcond h
    · simp only [Alien.update]
      split
      next h =>
        rcases h with h | h <;> omega
      next h => exact ⟨rfl, rfl⟩
  · refine ⟨?_, ?_, ?_, ?_, ?_, ?_⟩ <;> decide

/-- Witness for C3 at a concrete input: an alien one step from the right
bound flips its speed and descends by 10 in the same update. -/
theorem claim_C3_witness :
    (Alien.update []
        { id := 0, x := 498, y := 200, speed := 5, left_limit := 50,
          right_limit := 500, w := 60, h := 40 }).speed = -5 ∧
      (Alien.update []
        { id := 0, x := 498, y := 200, speed := 5, left_limit := 50,
          right_limit := 500, w := 60, h := 40 }).y = 210 :=
  (claim_C3.1 []
    { id := 0, x := 498, y := 200, speed := 5, left_limit := 50,
      right_limit := 500, w := 60, h := 40 }).2.1 (Or.inr (by decide))

/-- Claim C4: for any event batch with no RIGHT key events in which the
LEFT key-downs and LEFT key-ups are matched (equal counts), a player whose
horizontal velocity is 0 has horizontal velocity exactly 0 again after
`Player.update` processes the batch. -/
theorem claim_C4 (es : List Event) (p : Player)
    (hdR : countKey (.keydown .right) es = 0)
    (huR : countKey (.keyup .right) es = 0)
    (hbal : countKey (.keydown .left) es = countKey (.keyup .left) es)
    (h0 : p.x_vel = 0) :
    (Player.update es p).x_vel = 0 := by
  have h : (Player.update es p).x_vel = (es.foldl applyKeyEvent p).x_vel := rfl
  rw [h, foldl_applyKeyEvent_x_vel, h0, hdR, huR, hbal]
  ring

/-- Witness for C4: pressing and releasing LEFT leaves velocity 0. -/
theorem claim_C4_witness :
    (Player.update [Event.keydown Key.left, Event.keyup Key.left] player0).x_vel = 0 :=
  claim_C4 [Event.keydown Key.left, Event.keyup Key.left] player0
    (by decide) (by decide) (by decide) (by decide)

/-- Claim C5: starting from horizontal velocity 0, processing
key-down(LEFT), key-down(RIGHT), key-up(RIGHT) leaves the player's
horizontal velocity at exactly -10. -/
theorem claim_C5 :
    (Player.update [Event.keydown Key.left, Event.keydown Key.right, Event.keyup Key.right]
      player0).x_vel = -10 := by
  decide

/-- Claim C10: the per-tick transition is deterministic — equal states and
equal event batches produce equal tick results (`tick` consults no other
input). -/
theorem claim_C10 (s1 s2 : GameState) (es1 es2 : List Event)
    (hs : s1 = s2) (he : es1 = es2) : tick es1 s1 = tick es2 s2 := by
  subst hs
  subst he
  rfl

/-- Witness for C10 at a concrete state and batch. -/
theorem claim_C10_witness : tick [] sInit = tick [] sInit :=
  claim_C10 sInit sInit [] [] rfl rfl


/-- A bullet overlapping `cexAlienA` and `cexAlienB` but not
`cexAlienFar`. -/
def cexBullet : Bullet :=
  { id := 10, x := 100, y := 500, velocity := 10, w := 8, h := 16 }

/-- An alien at the bullet's position (their rectangles overlap). -/
def cexAlienA : Alien :=
  { id := 11, x := 100, y := 500, speed := 5, left_limit := 50,
    right_limit := 500, w := 60, h := 40 }

/-- An alien far from the bullet (no overlap). -/
def cexAlienFar : Alien :=
  { id := 12, x := 400, y := 100, speed := 5, left_limit := 50,
    right_limit := 500, w := 60, h := 40 }

/-- A second alien overlapping the bullet. -/
def cexAlienB : Alien :=
  { id := 13, x := 90, y := 490, speed := 5, left_limit := 50,
    right_limit := 500, w := 60, h := 40 }

/-- Counterexample to claim C1: the collision pass is not total.  With one
bullet and three aliens of which the first and the third overlap the
bullet, the pass removes the bullet and the first alien on the first
match, keeps comparing the already-removed bullet, matches the third
alien, and `bullet_list.remove(bullet)` then raises `ValueError` (the pass
returns an error rather than completing). -/
theorem claim_C1_counterexample :
    outerLoop 0 [cexBullet] [cexAlienA, cexAlienFar, cexAlienB] = .error () := by
  have hrb : removeFirst (fun x => x.id == cexBullet.id) [cexBullet] = some [] := by
    simp [removeFirst]
  have hra : removeFirst (fun x => x.id == cexAlienA.id)
      [cexAlienA, cexAlienFar, cexAlienB] = some [cexAlienFar, cexAlienB] := by
    simp [removeFirst, cexAlienA]
  have h1 : innerLoop cexBullet 0 [cexBullet] [cexAlienA, cexAlienFar, cexAlienB] =
      innerLoop cexBullet 1 [] [cexAlienFar, cexAlienB] :=
    innerLoop_step_col_ok (by decide) (by decide) hrb hra
  have h2 : innerLoop cexBullet 1 ([] : List Bullet) [cexAlienFar, cexAlienB] = .error () :=
    innerLoop_step_col_err (by decide) (by decide) (by simp [removeFirst])
  exact outerLoop_step_error (by decide) (h1.trans h2)

/-- Claim C1 as amended: in the collision pass a single bullet overlapping
two aliens removes only the first matching alien when the second
overlapping alien immediately follows the first in the alien list — the
iterator skips the element after a removal, so the adjacent second alien
is never compared and the pass completes without error.  The removed
bullet, however, is not skipped in later comparisons of the same pass:
the inner loop keeps comparing it, and when it matches a second,
non-adjacent alien the pass raises an error (removing the already-removed
bullet from the bullet list fails), so the pass is not total. -/
theorem claim_C1_amended :
    (∀ (b : Bullet) (a0 a1 : Alien),
      colliderect b.get_rectangle a0.get_rectangle = true →
      colliderect b.get_rectangle a1.get_rectangle = true →
      outerLoop 0 [b] [a0, a1] = .ok ([], [a1])) ∧
    (∀ (b : Bullet) (a0 a1 a2 : Alien),
      colliderect b.get_rectangle a0.get_rectangle = true →
      colliderect b.get_rectangle a1.get_rectangle = false →
      colliderect b.get_rectangle a2.get_rectangle = true →
      outerLoop 0 [b] [a0, a1, a2] = .error ()) := by
  constructor
  · intro b a0 a1 hc0 hc1
    have hrb : removeFirst (fun x => x.id == b.id) [b] = some [] := by
      simp [removeFirst]
    have hra : removeFirst (fun x => x.id == a0.id) [a0, a1] = some [a1] := by
      simp [removeFirst]
    have h1 : innerLoop b 0 [b] [a0, a1] = innerLoop b 1 [] [a1] :=
      innerLoop_step_col_ok (by simp) hc0 hrb hra
    have h2 : innerLoop b 1 ([] : List Bullet) [a1] = .ok ([], [a1]) :=
      innerLoop_done (by simp)
    have h3 : outerLoop 0 [b] [a0, a1] = outerLoop 1 [] [a1] :=
      outerLoop_step_ok (by simp) (h1.trans h2)
    rw [h3]
    exact outerLoop_done (by simp)
  · intro b a0 a1 a2 hc0 hc1 hc2
    have hrb : removeFirst (fun x => x.id == b.id) [b] = some [] := by
      simp [removeFirst]
    have hra : removeFirst (fun x => x.id == a0.id) [a0, a1, a2] = some [a1, a2] := by
      simp [removeFirst]
    have h1 : innerLoop b 0 [b] [a0, a1, a2] = innerLoop b 1 [] [a1, a2] :=
      innerLoop_step_col_ok (by simp) hc0 hrb hra
    have h2 : innerLoop b 1 ([] : List Bullet) [a1, a2] = .error () :=
      innerLoop_step_col_err (by simp) hc2 (by simp [removeFirst])
    exact outerLoop_step_error (by simp) (h1.trans h2)

/-- Witness for the amended C1 at concrete entities: the adjacent-pair
case completes removing only the first match, and the non-adjacent case
errors. -/
theorem claim_C1_amended_witness :
    outerLoop 0 [cexBullet] [cexAlienA, cexAlienB] = .ok ([], [cexAlienB]) ∧
      outerLoop 0 [cexBullet] [cexAlienB, cexAlienFar, cexAlienA] = .error () :=
  ⟨claim_C1_amended.1 cexBullet cexAlienA cexAlienB (by decide) (by decide),
    claim_C1_amended.2 cexBullet cexAlienB cexAlienFar cexAlienA
      (by decide) (by decide) (by decide)⟩


/-- Claim C8: a single bullet and a single alien both at position
(100, 500), with images of positive width and height, are both removed by
the collision pass — afterwards both active collections are empty. -/
theorem claim_C8 (b : Bullet) (a : Alien)
    (hbx : b.x = 100) (hby : b.y = 500) (hax : a.x = 100) (hay : a.y = 500)
    (hwb : 0 < b.w) (hhb : 0 < b.h) (hwa : 0 < a.w) (hha : 0 < a.h) :
    outerLoop 0 [b] [a] = .ok ([], []) := by
  have hc : colliderect b.get_rectangle a.get_rectangle = true := by
    simp [colliderect, Bullet.get_rectangle, Alien.get_rectangle]
    omega
  have h1 : innerLoop b 0 [b] [a] = innerLoop b 1 [] [] :=
    innerLoop_step_col_ok (by simp) hc (by simp [removeFirst]) (by simp [removeFirst])
  have h2 : innerLoop b 1 ([] : List Bullet) ([] : List Alien) = .ok ([], []) :=
    innerLoop_done (by simp)
  have h3 : outerLoop 0 [b] [a] = outerLoop 1 [] [] :=
    outerLoop_step_ok (by simp) (h1.trans h2)
  rw [h3]
  exact outerLoop_done (by simp)

/-- Witness for C8 at a concrete bullet and alien at (100, 500). -/
theorem claim_C8_witness : outerLoop 0 [cexBullet] [cexAlienA] = .ok ([], []) :=
  claim_C8 cexBullet cexAlienA (by decide) (by decide) (by decide) (by decide)
    (by decide) (by decide) (by decide) (by decide)

theorem update_logic_no_bullets (es : List Event) (s : GameState)
    (hb : s.bullet_list = []) :
    update_logic es s =
      .ok
        { s with
          player := Player.update es s.player,
          alien_list := s.alien_list.map (Alien.update es),
          bullet_list := [] } := by
  unfold update_logic
  rw [hb]
  simp only [List.map_nil]
  rw [outerLoop_done (by simp)]


/-- Recogniser for bullet draw commands in a frame. -/
def isBulletDraw (d : Drawable) : Bool :=
  match d with
  | .bulletD _ _ => true
  | _ => false

/-- Counterexample to claim C2: in the source the render pass runs before
the fire-action handling, so the bullet spawned by a space key-down in a
tick is not drawn in that tick's frame.  Starting from the initial state
with a batch containing only a space key-down, after the tick the bullet
list holds one (new) bullet while the presented frame contains zero bullet
draw commands. -/
theorem claim_C2_counterexample :
    (tick [Event.keydown Key.space] sInit).map
      (fun r => (r.1.bullet_list.length, r.2.countP isBulletDraw)) = .ok (1, 0) := by
  unfold tick
  rw [update_logic_no_bullets [Event.keydown Key.space] sInit rfl]
  rfl

/-- Claim C2 as amended: a tick runs the entity updates and the collision
pass (`update_logic`), then the render pass over that pre-spawn state, and
only afterwards the post-render event loop, which appends one bullet at
the player's current horizontal position and row 500 for each fire-action
key-down (and handles quit).  The frame therefore draws exactly the
pre-spawn bullets, one bullet draw per bullet of the pre-spawn list, and a
bullet spawned in a tick is not part of that tick's frame. -/
theorem claim_C2_amended (es : List Event) (s s1 : GameState)
    (h : update_logic es s = .ok s1) :
    tick es s = .ok (postEvents es s1, update_display s1) ∧
    (postEvents es s1).bullet_list =
      s1.bullet_list ++ spawned s1.player.x s1.bullet_w s1.bullet_h s1.next_id es ∧
    (update_display s1).countP isBulletDraw = s1.bullet_list.length := by
  refine ⟨?_, postEvents_bullet_list es s1, ?_⟩
  · unfold tick
    rw [h]
  · simp [update_display, List.countP_cons, List.countP_append, List.countP_map,
      isBulletDraw, Function.comp_def, List.countP_true, List.countP_false]

/-- Witness for the amended C2: a tick from the empty-lists state with one
space key-down. -/
theorem claim_C2_amended_witness :
    tick [Event.keydown Key.space] sEmpty =
      .ok
        (postEvents [Event.keydown Key.space]
          { sEmpty with
            player := Player.update [Event.keydown Key.space] sEmpty.player,
            alien_list := [],
            bullet_list := [] },
         update_display
          { sEmpty with
            player := Player.update [Event.keydown Key.space] sEmpty.player,
            alien_list := [],
            bullet_list := [] }) :=
  (claim_C2_amended [Event.keydown Key.space] sEmpty _
    (update_logic_no_bullets [Event.keydown Key.space] sEmpty rfl)).1

/-- Claim C7: the run flag is a two-state machine.  A tick that completes
(returning its rendered frame) leaves `running` true exactly when it was
true before and the batch contains no escape key-up and no quit event;
in particular once `running` is false it stays false, and a quit signal in
the batch forces it false after the tick's render. -/
theorem update_logic_running (es : List Event) (s s2 : GameState)
    (h : update_logic es s = .ok s2) : s2.running = s.running := by
  unfold update_logic at h
  split at h
  · simp at h
  next bl1 al1 heq =>
    simp at h
    rw [← h]

theorem claim_C7 (es : List Event) (s s1 : GameState) (f : List Drawable)
    (h : tick es s = .ok (s1, f)) :
    s1.running = (s.running && !es.any isQuitSignal) := by
  unfold tick at h
  cases hul : update_logic es s with
  | error e =>
    rw [hul] at h
    simp at h
  | ok s2 =>
    rw [hul] at h
    simp at h
    rw [← h.1, postEvents_running es s2, update_logic_running es s s2 hul]

/-- Witness for C7: a tick of the empty-lists state on a batch holding a
quit event ends with `running` false. -/
theorem claim_C7_witness :
    (postEvents [Event.quit]
      { sEmpty with
        player := Player.update [Event.quit] sEmpty.player,
        alien_list := [],
        bullet_list := [] }).running = false := by
  have hul := update_logic_no_bullets [Event.quit] sEmpty rfl
  have ht : tick [Event.quit] sEmpty =
      .ok
        (postEvents [Event.quit]
          { sEmpty with
            player := Player.update [Event.quit] sEmpty.player,
            alien_list := [],
            bullet_list := [] },
         update_display
          { sEmpty with
            player := Player.update [Event.quit] sEmpty.player,
            alien_list := [],
            bullet_list := [] }) := by
    unfold tick
    rw [hul]
    rfl
  have hc := claim_C7 [Event.quit] sEmpty _ _ ht
  rw [hc]
  rfl


/-- Claim C9: with empty alien and bullet lists, any number of
`update_logic` ticks with any event batches succeeds (no error), leaves
the alien and bullet lists empty and every other field unchanged, and
changes the player exactly by folding `Player.update` over the batches
(velocity accumulation). -/
theorem claim_C9 (bs : List (List Event)) (s : GameState)
    (ha : s.alien_list = []) (hb : s.bullet_list = []) :
    runLogic bs s =
      .ok { s with player := bs.foldl (fun p es => Player.update es p) s.player } := by
  induction bs generalizing s with
  | nil => rfl
  | cons es bs ih =>
    obtain ⟨p, al, bl, r, ni, bw, bh2⟩ := s
    simp only at ha hb
    subst ha
    subst hb
    show (match update_logic es ⟨p, [], [], r, ni, bw, bh2⟩ with
      | Except.error e => Except.error e
      | Except.ok s1 => runLogic bs s1) = _
    rw [update_logic_no_bullets es ⟨p, [], [], r, ni, bw, bh2⟩ rfl]
    show runLogic bs ⟨Player.update es p, [], [], r, ni, bw, bh2⟩ = _
    rw [ih ⟨Player.update es p, [], [], r, ni, bw, bh2⟩ rfl rfl]
    rfl

/-- Witness for C9: two batches from the empty-lists state. -/
theorem claim_C9_witness :
    runLogic [[Event.keydown Key.left], []] sEmpty =
      .ok { sEmpty with
            player := [[Event.keydown Key.left], []].foldl
              (fun p es => Player.update es p) sEmpty.player } :=
  claim_C9 [[Event.keydown Key.left], []] sEmpty rfl rfl

/-- Claim C6: `Bullet.update` ignores the event batch and unconditionally
decreases `y` by the bullet's `velocity` (leaving every other field
unchanged); bullets constructed by the fire action have velocity 10 and
spawn row 500, so they move up by exactly 10 per tick; and the collision
pass never removes a bullet whose rectangle overlaps no alien in the pass
— with distinct bullet identities, a bullet that collides with no alien
is still in the bullet list when the pass completes, so the bullet
collection shrinks only through collisions (there is no off-screen
expiry anywhere in a tick). -/
theorem update_logic_ok_pass {es : List Event} {s s2 : GameState}
    (h : update_logic es s = .ok s2) :
    outerLoop 0 (s.bullet_list.map (Bullet.update es)) (s.alien_list.map (Alien.update es)) =
      .ok (s2.bullet_list, s2.alien_list) := by
  unfold update_logic at h
  split at h
  · simp at h
  next bl1 al1 heq =>
    simp at h
    rw [← h]
    exact heq

theorem claim_C6 :
    (∀ (es es2 : List Event) (b : Bullet), Bullet.update es b = Bullet.update es2 b) ∧
    (∀ (es : List Event) (b : Bullet),
      (Bullet.update es b).y = b.y - b.velocity ∧
      (Bullet.update es b).x = b.x ∧
      (Bullet.update es b).velocity = b.velocity) ∧
    (∀ s : GameState, (spawnBullet s).velocity = 10 ∧ (spawnBullet s).y = 500) ∧
    (∀ (bl bl1 : List Bullet) (al al1 : List Alien) (b : Bullet),
      (bl.map Bullet.id).Nodup →
      outerLoop 0 bl al = .ok (bl1, al1) →
      b ∈ bl →
      (∀ a ∈ al, colliderect b.get_rectangle a.get_rectangle = false) →
      b ∈ bl1) ∧
    (∀ (es : List Event) (s s1 : GameState) (f : List Drawable) (b : Bullet),
      ((s.bullet_list.map (Bullet.update es)).map Bullet.id).Nodup →
      tick es s = .ok (s1, f) →
      b ∈ s.bullet_list →
      (∀ a ∈ s.alien_list.map (Alien.update es),
        colliderect (Bullet.update es b).get_rectangle a.get_rectangle = false) →
      Bullet.update es b ∈ s1.bullet_list) := by
  refine ⟨fun es es2 b => rfl, fun es b => ⟨rfl, rfl, rfl⟩, fun s => ⟨rfl, rfl⟩, ?_, ?_⟩
  · intro bl bl1 al al1 b hnd hok hb hnc
    exact outerLoop_mem_bullet hnd hok hb hnc
  · intro es s s1 f b hnd ht hb hnc
    unfold tick at ht
    cases hul : update_logic es s with
    | error e =>
      rw [hul] at ht
      simp at ht
    | ok s2 =>
      rw [hul] at ht
      simp at ht
      have hpass := update_logic_ok_pass hul
      have hmem : Bullet.update es b ∈ s2.bullet_list :=
        outerLoop_mem_bullet hnd hpass (List.mem_map_of_mem _ hb) hnc
      rw [← ht.1, postEvents_bullet_list]
      exact List.mem_append_left _ hmem

/-- Witness for C6: a pass over one bullet and one distant alien keeps the
bullet. -/
theorem claim_C6_witness : cexBullet ∈ ([cexBullet] : List Bullet) := by
  have h1 : innerLoop cexBullet 0 [cexBullet] [cexAlienFar] =
      innerLoop cexBullet 1 [cexBullet] [cexAlienFar] :=
    innerLoop_step_nocol (by simp) (by decide)
  have h2 : innerLoop cexBullet 1 [cexBullet] [cexAlienFar] =
      .ok ([cexBullet], [cexAlienFar]) :=
    innerLoop_done (by simp)
  have h3 : outerLoop 0 [cexBullet] [cexAlienFar] =
      outerLoop 1 [cexBullet] [cexAlienFar] :=
    outerLoop_step_ok (by simp) (h1.trans h2)
  have h4 : outerLoop 0 [cexBullet] [cexAlienFar] = .ok ([cexBullet], [cexAlienFar]) := by
    rw [h3]
    exact outerLoop_done (by simp)
  refine claim_C6.2.2.2.1 [cexBullet] [cexBullet] [cexAlienFar] [cexAlienFar] cexBullet
    (by simp) h4 (by simp) ?_
  intro a ha
  have : a = cexAlienFar := by simpa using ha
  rw [this]
  decide

end PyInvaders
